import Mathlib

/-
Shallow embedding of the job repository layer of cc-backend
(src/internal/repository/job.go) together with proofs about the
claims of its specification.

Conventions of the embedding:
- a database table is a Lean list of row structures; a SQL UPDATE is a
  List.map over the rows, a WHERE clause is a List.filter, QueryRow takes
  the head of the result list;
- Go maps (string to string metadata, the statistics map) are association
  lists observed through List.lookup, which captures map semantics up to
  the unspecified iteration order of Go maps;
- fallible Go code returns an error value modeled by Option Err or
  Except; a Go runtime panic (nil map entry dereference, slice bounds) is
  modeled as Except.error carrying a GoPanic value;
- machine integers of the source are modeled by Int (no arithmetic in any
  claim comes near the int32/int64 bounds);
- summary statistic columns in the job table store float64 averages; no
  claim computes with those values (they are only ever copied or required
  to stay unchanged), so their carrier is modeled as Int.
-/

namespace CcBackend

/-- Job run state (schema.JobState in the source). -/
inductive JobState
  | running
  | completed
  | failed
  | cancelled
  | stopped
  | timeout
  deriving DecidableEq, Repr

/-- Monitoring status constants (schema.MonitoringStatus in the source). -/
inductive MonitoringStatus
  | disabled
  | runningOrArchiving
  | archivingFailed
  | archivingSuccessful
  deriving DecidableEq, Repr

/-- Decoded free-form metadata mapping, observed through List.lookup. -/
abbrev MetaMap := List (String × String)

/-- Serialization of a metadata map to the stored meta_data blob, as done
by json.Marshal; the blob text is what the SQL LIKE predicate of
FindUserOrProjectOrJobname matches against. -/
def marshalMeta (m : MetaMap) : String :=
  "\x7b" ++ String.intercalate "," (m.map (fun p => "\"" ++ p.1 ++ "\":\"" ++ p.2 ++ "\"")) ++ "\x7d"

/-- One row of the job table, with the columns of jobColumns plus the
meta_data blob and the per-metric summary columns written by MarkArchived. -/
structure JobRow where
  id : Nat
  jobId : Int
  user : String
  project : String
  cluster : String
  subcluster : String
  startTime : Int
  partition : String
  arrayJobId : Int
  numNodes : Int
  numHWThreads : Int
  numAcc : Int
  exclusive : Int
  monitoringStatus : MonitoringStatus
  smt : Int
  state : JobState
  duration : Int
  walltime : Int
  resources : String
  metaData : Option MetaMap
  flopsAnyAvg : Int
  memUsedMax : Int
  memBwAvg : Int
  loadAvg : Int
  netBwAvg : Int
  fileBwAvg : Int
  deriving DecidableEq, Repr

/-- Substring test on lists of characters: pat occurs inside s.
This is the semantics of the SQL predicate (column LIKE percent-pat-percent)
for a pattern free of wildcard characters. -/
def listContainsSub (pat : List Char) : List Char → Bool
  | [] => pat.isEmpty
  | c :: rest => pat.isPrefixOf (c :: rest) || listContainsSub pat rest

/-- Substring test on strings; used to embed LIKE with percent on both sides. -/
def strContains (s pat : String) : Bool :=
  listContainsSub pat.toList s.toList

/-- strconv.Atoi succeeds: an optional sign followed by one or more digits. -/
def isIntString (s : String) : Bool :=
  let t := match s.data with
    | c :: rest => if c = '-' || c = '+' then rest else c :: rest
    | [] => []
  !t.isEmpty && t.all Char.isDigit

/-- Errors surfaced by repository operations. ErrNotFound and ErrForbidden
are the named errors of job.go; noRows is sql.ErrNoRows; scanFailed is a
row-scan failure. -/
inductive Err
  | notFound
  | forbidden
  | noRows
  | scanFailed
  deriving DecidableEq, Repr

/-- Go runtime panics reachable in the embedded code. -/
inductive GoPanic
  | sliceOutOfRange
  | nilPointerDeref
  deriving DecidableEq, Repr

/-- The one-byte Go slice metasnip[0:1] on a nonempty string: its first
character as a string. -/
def strTake1 (s : String) : String :=
  String.mk (s.data.take 1)

instance {e a : Type} [DecidableEq e] [DecidableEq a] : DecidableEq (Except e a) := fun x y =>
  match x, y with
  | Except.error u, Except.error v =>
      if h : u = v then Decidable.isTrue (h ▸ rfl)
      else Decidable.isFalse (fun hh => h (by injection hh))
  | Except.ok u, Except.ok v =>
      if h : u = v then Decidable.isTrue (h ▸ rfl)
      else Decidable.isFalse (fun hh => h (by injection hh))
  | Except.error _, Except.ok _ => Decidable.isFalse (fun hh => Except.noConfusion hh)
  | Except.ok _, Except.error _ => Decidable.isFalse (fun hh => Except.noConfusion hh)

/-- Roles of the auth package. Modelled from the spec: the auth package is
not under src; section 4.3 names administrator, support and manager as the
elevated roles, plain user and api as non-elevated. -/
inductive Role
  | admin
  | support
  | manager
  | user
  | api
  deriving DecidableEq, Repr

/-- Authenticated caller identity. Modelled from the spec: the
authorization provider returns the caller identity and role set. -/
structure User where
  username : String
  name : String
  roles : List Role
  deriving DecidableEq, Repr

/-- auth.User.HasAnyRole. Modelled from the spec: true when the user holds
at least one of the given roles. -/
def User.hasAnyRole (u : User) (rs : List Role) : Bool :=
  rs.any (fun r => u.roles.contains r)

/-- One row of the user table (columns used by job.go: username, name). -/
structure UserRow where
  username : String
  name : String
  deriving DecidableEq, Repr

/-- The relational store as seen by job.go: the job table and the user table. -/
structure Database where
  jobs : List JobRow
  users : List UserRow
  deriving DecidableEq, Repr

/-- Column valuation of a job row for the generic column lookup; NULL is
Option.none. The meta_data column holds the serialized blob. -/
def jobCol (j : JobRow) : String → Option String
  | "user" => some j.user
  | "project" => some j.project
  | "cluster" => some j.cluster
  | "subcluster" => some j.subcluster
  | "meta_data" => j.metaData.map marshalMeta
  | _ => none

/-- Column valuation of a user row. -/
def userCol (u : UserRow) : String → Option String
  | "username" => some u.username
  | "name" => some u.name
  | _ => none

/-- Rows of a table addressed by name, as column valuations. -/
def dbTableRows (env : Database) : String → List (String → Option String)
  | "job" => env.jobs.map jobCol
  | "user" => env.users.map userCol
  | _ => []

/-- WHERE comparison of FindColumnValue: equality, or LIKE with percent on
both sides when isLike is set; a NULL column never matches. -/
def whereMatch (v : Option String) (term : String) (isLike : Bool) : Bool :=
  match v with
  | none => false
  | some s => if isLike then strContains s term else s == term

/-- JobRepository.FindColumnValue: generic single-value lookup of
selectColumn from table where whereColumn compares against the search
term, DISTINCT, first row only; gated on the elevated roles. Returns the
pair (result, error) exactly as the Go function does. -/
def FindColumnValue (env : Database) (u : User) (searchterm table selectColumn whereColumn : String)
    (isLike : Bool) : String × Option Err :=
  if u.hasAnyRole [Role.admin, Role.support, Role.manager] then
    let hits := (dbTableRows env table).filter (fun r => whereMatch (r whereColumn) searchterm isLike)
    match ((hits.map (fun r => r selectColumn)).dedup).head? with
    | some (some v) => (v, none)
    | some none => ("", some Err.scanFailed)
    | none => ("", some Err.notFound)
  else
    ("", some Err.forbidden)

/-- LIKE match of the metadata-substring step of FindUserOrProjectOrJobname:
job.meta_data LIKE percent-searchterm-percent. -/
def metaLike (j : JobRow) (term : String) : Bool :=
  match j.metaData with
  | none => false
  | some m => strContains (marshalMeta m) term

/-- Distinct clusters of jobs whose meta_data blob contains the search term,
in table order: SELECT DISTINCT job.cluster FROM job WHERE job.meta_data LIKE ... -/
def metaMatchClusters (env : Database) (term : String) : List String :=
  ((env.jobs.filter (fun j => metaLike j term)).map JobRow.cluster).dedup

/-- Result of the final metadata-substring step of FindUserOrProjectOrJobname,
computed over the whole job table with no restriction on the owner of the
rows; the clusterHint is the one-byte slice metasnip[0:1], which panics on
an empty cluster value. -/
def metaStepResult (env : Database) (term : String) :
    Except GoPanic (String × String × String × Option Err) :=
  match (metaMatchClusters env term).head? with
  | some metasnip =>
      if metasnip = "" then Except.error GoPanic.sliceOutOfRange
      else Except.ok ("", "", strTake1 metasnip, none)
  | none => Except.ok ("", "", "", some Err.notFound)

/-- JobRepository.FindUserOrProjectOrJobname: free-text search resolver.
Integer search terms defer to the caller; otherwise, for a logged-in user,
it tries exact username among jobs, fuzzy username in the user table,
exact project among jobs (each through FindColumnValue), and finally the
metadata substring match, the first non-empty hit short-circuiting. -/
def FindUserOrProjectOrJobname (env : Database) (ctxUser : Option User) (searchterm : String) :
    Except GoPanic (String × String × String × Option Err) :=
  if isIntString searchterm then
    Except.ok ("", "", "", none)
  else
    match ctxUser with
    | some user =>
        let uresult := (FindColumnValue env user searchterm "job" "user" "user" false).1
        if uresult != "" then Except.ok (uresult, "", "", none)
        else
          let nresult := (FindColumnValue env user searchterm "user" "username" "name" true).1
          if nresult != "" then Except.ok (nresult, "", "", none)
          else
            let presult := (FindColumnValue env user searchterm "job" "project" "project" false).1
            if presult != "" then Except.ok ("", presult, "", none)
            else metaStepResult env searchterm
    | none => Except.ok ("", "", "", some Err.notFound)

/-- scanJob: builds the Job value returned to callers from a scanned row.
If the stored duration is 0 and the job is running, the effective duration
is re-derived as now minus start time; the derived value lives only in the
returned value, never in the store. -/
def scanJob (now : Int) (j : JobRow) : JobRow :=
  if j.duration = 0 ∧ j.state = JobState.running then
    {j with duration := now - j.startTime}
  else j

/-- Optional equality filter used by Find for the cluster argument. -/
def optMatchStr (o : Option String) (v : String) : Bool :=
  match o with
  | none => true
  | some c => v == c

/-- Optional equality filter used by Find for the startTime argument. -/
def optMatchInt (o : Option Int) (v : Int) : Bool :=
  match o with
  | none => true
  | some c => v == c

/-- JobRepository.Find: exact lookup by batch job id, optionally narrowed
by cluster and start time; QueryRow takes the first matching row, scanned
through scanJob. The database is returned unchanged: Find is a pure read. -/
def Find (now : Int) (db : List JobRow) (jobId : Int) (cluster : Option String)
    (startTime : Option Int) : Except Err JobRow × List JobRow :=
  let rows := db.filter (fun j =>
    j.jobId == jobId && optMatchStr cluster j.cluster && optMatchInt startTime j.startTime)
  match rows.head? with
  | none => (Except.error Err.noRows, db)
  | some r => (Except.ok (scanJob now r), db)

/-- The per-row transition of StopJobsExceedingWalltimeBy: a running job
with a positive walltime limit whose elapsed time exceeds walltime plus
the grace period is marked failed with duration 0 and monitoring status
archiving-failed; every other row is untouched. -/
def walltimeTransition (j : JobRow) : JobRow :=
  {j with monitoringStatus := MonitoringStatus.archivingFailed,
          duration := 0,
          state := JobState.failed}

def stopWalltimeOne (now seconds : Int) (j : JobRow) : JobRow :=
  if j.state = JobState.running ∧ j.walltime > 0 ∧ now - j.startTime > j.walltime + seconds then
    walltimeTransition j
  else j

/-- JobRepository.StopJobsExceedingWalltimeBy as a bulk UPDATE over the
job table. -/
def StopJobsExceedingWalltimeBy (now seconds : Int) (db : List JobRow) : List JobRow :=
  db.map (stopWalltimeOne now seconds)

/-- Process-wide cache keyed by job database id holding decoded metadata
maps (the cache keys metadata:ID of the source). Modelled from the spec:
the lrucache package is not under src; section 4.2 gives get/put/delete
plain map semantics, with capacity eviction and TTL expiry omitted here
since no claim exercises them. -/
abbrev MetaCache := List (Nat × MetaMap)

/-- Cache lookup. -/
def cacheGet (c : MetaCache) (k : Nat) : Option MetaMap :=
  c.lookup k

/-- Unconditional cache insert/replace. -/
def cachePut (c : MetaCache) (k : Nat) (v : MetaMap) : MetaCache :=
  (k, v) :: c.filter (fun p => p.1 != k)

/-- Explicit cache invalidation. -/
def cacheDel (c : MetaCache) (k : Nat) : MetaCache :=
  c.filter (fun p => p.1 != k)

/-- Repository state: the job table plus the process-wide metadata cache. -/
structure RepoState where
  db : List JobRow
  cache : MetaCache
  deriving DecidableEq, Repr

/-- The row of the job table with the given database id, if any. -/
def rowOf (db : List JobRow) (id : Nat) : Option JobRow :=
  db.find? (fun j => j.id == id)

/-- JobRepository.FetchMetadata: cache hit returns the cached map; on a
miss the meta_data blob is read from the row (a missing row is a scan
error), an empty blob yields no metadata without an error, and a decoded
map is placed into the cache. -/
def FetchMetadata (s : RepoState) (jobId : Nat) : Except Err (Option MetaMap) × RepoState :=
  match cacheGet s.cache jobId with
  | some m => (Except.ok (some m), s)
  | none =>
    match rowOf s.db jobId with
    | none => (Except.error Err.noRows, s)
    | some row =>
      match row.metaData with
      | none => (Except.ok none, s)
      | some m => (Except.ok (some m), {s with cache := cachePut s.cache jobId m})

/-- The copy-on-write merge of UpdateMetadata: all bindings of the
existing map are copied into a fresh map which then receives the new key;
the original map value is left untouched. -/
def copyInsert (m : MetaMap) (key val : String) : MetaMap :=
  (key, val) :: m.filter (fun p => p.1 != key)

/-- UPDATE job SET meta_data = blob WHERE job.id = id; a missing row makes
the statement a successful no-op, as in SQL. -/
def dbSetMeta (db : List JobRow) (id : Nat) (m : MetaMap) : List JobRow :=
  db.map (fun j => if j.id == id then {j with metaData := some m} else j)

/-- JobRepository.UpdateMetadata: invalidates the cache entry, fetches the
current map when the in-memory job has none, merges the new key into a
fresh copy, persists the serialized result and repopulates the cache.
jobMeta is the MetaData field of the in-memory job value; the returned
triple is (error, new in-memory MetaData field, new repository state). -/
def UpdateMetadata (s : RepoState) (jobId : Nat) (jobMeta : Option MetaMap) (key val : String) :
    Except Err Unit × Option MetaMap × RepoState :=
  let s1 : RepoState := {s with cache := cacheDel s.cache jobId}
  let fetched : Except Err (Option MetaMap) × RepoState :=
    match jobMeta with
    | none => FetchMetadata s1 jobId
    | some m => (Except.ok (some m), s1)
  match fetched with
  | (Except.error e, s2) => (Except.error e, jobMeta, s2)
  | (Except.ok jm, s2) =>
    let merged := match jm with
      | some m => copyInsert m key val
      | none => [(key, val)]
    let s3 : RepoState := {s2 with db := dbSetMeta s2.db jobId merged}
    (Except.ok (), some merged, {s3 with cache := cachePut s3.cache jobId merged})

/-- Per-metric summary statistics returned by the external archive client
(schema.JobStatistics); the carrier of the float64 values is Int since no
claim computes with them. -/
structure JobStatistics where
  avg : Int
  min : Int
  max : Int
  deriving DecidableEq, Repr

/-- JobRepository.UpdateMonitoringStatus: single-column UPDATE of the
monitoring status of the row with the given database id. -/
def UpdateMonitoringStatus (db : List JobRow) (jobId : Nat) (ms : MonitoringStatus) : List JobRow :=
  db.map (fun j => if j.id == jobId then {j with monitoringStatus := ms} else j)

/-- One case of the metric switch of MarkArchived: a recognized metric
name writes its summary column, an unrecognized one is ignored. -/
def applyMetricStat (j : JobRow) (metric : String) (st : JobStatistics) : JobRow :=
  match metric with
  | "flops_any" => {j with flopsAnyAvg := st.avg}
  | "mem_used" => {j with memUsedMax := st.max}
  | "mem_bw" => {j with memBwAvg := st.avg}
  | "load" => {j with loadAvg := st.avg}
  | "net_bw" => {j with netBwAvg := st.avg}
  | "file_bw" => {j with fileBwAvg := st.avg}
  | _ => j

/-- JobRepository.MarkArchived: sets the monitoring status and the summary
columns of the recognized metrics in one UPDATE. The statistics map is an
association list; Go map iteration order is unspecified, which is
harmless because distinct metric names write distinct columns. -/
def MarkArchived (db : List JobRow) (jobId : Nat) (ms : MonitoringStatus)
    (metricStats : List (String × JobStatistics)) : List JobRow :=
  db.map (fun j =>
    if j.id == jobId then
      metricStats.foldl (fun a p => applyMetricStat a p.1 p.2) {j with monitoringStatus := ms}
    else j)

/-- One task consumed by the archiving worker: the job read from the
channel together with the outcomes of the two external effects, namely
the archive client call (metricdata.ArchiveJob, an external collaborator:
none is a failure, some carries the returned statistics) and the SQL
execution of MarkArchived. -/
structure ArchiveTask where
  job : JobRow
  archiveResult : Option (List (String × JobStatistics))
  markOk : Bool
  deriving DecidableEq, Repr

/-- One iteration of the archivingWorker loop body for a dequeued job.
Returns the new repository state and whether archivePending.Done() was
called: a metadata fetch failure or an archive client failure marks the
job archiving-failed and continues without Done; a MarkArchived failure
continues without Done; only the fully successful pipeline calls Done. -/
def processArchiveTask (s : RepoState) (t : ArchiveTask) : RepoState × Bool :=
  match FetchMetadata s t.job.id with
  | (Except.error _, s1) =>
      ({s1 with db := UpdateMonitoringStatus s1.db t.job.id MonitoringStatus.archivingFailed}, false)
  | (Except.ok _, s1) =>
    match t.archiveResult with
    | none =>
        ({s1 with db := UpdateMonitoringStatus s1.db t.job.id MonitoringStatus.archivingFailed}, false)
    | some stats =>
        if t.markOk then
          ({s1 with db := MarkArchived s1.db t.job.id MonitoringStatus.archivingSuccessful stats}, true)
        else (s1, false)

/-- The archivingWorker loop draining a queue of tasks in order, counting
the calls to archivePending.Done(). -/
def archivingWorkerRun (s : RepoState) : List ArchiveTask → RepoState × Nat
  | [] => (s, 0)
  | t :: rest =>
    let step := processArchiveTask s t
    let tail := archivingWorkerRun step.1 rest
    (tail.1, (if step.2 then 1 else 0) + tail.2)

/-- Value of the pending-work counter after the worker has drained the
queue: TriggerArchiving added one per enqueued job, the worker subtracted
one per Done() call. WaitForArchiving returns exactly when this is zero. -/
def pendingAfter (s : RepoState) (queue : List ArchiveTask) : Nat :=
  queue.length - (archivingWorkerRun s queue).2

/-- Subcluster configuration: per-node core density constants
(external configuration consumed through archive.Clusters). -/
structure SubClusterCfg where
  name : String
  socketsPerNode : Int
  coresPerSocket : Int
  deriving DecidableEq, Repr

/-- Cluster configuration entry of archive.Clusters. -/
structure ClusterCfg where
  name : String
  subClusters : List SubClusterCfg
  deriving DecidableEq, Repr

/-- The groupBy argument of JobsStatistics (model.Aggregate). -/
inductive Aggregate
  | user
  | project
  | cluster
  deriving DecidableEq, Repr

/-- groupBy2column: the job column a grouping key is read from. -/
def aggColumn : Aggregate → JobRow → String
  | Aggregate.user => JobRow.user
  | Aggregate.project => JobRow.project
  | Aggregate.cluster => JobRow.cluster

/-- One per-group result of JobsStatistics (model.JobsStatistics). The
name enrichment for user grouping and the optional histograms only fill
fields not present here and are omitted. -/
structure JobsStats where
  id : String
  totalJobs : Int
  totalWalltime : Int
  totalCoreHours : Int
  shortJobs : Int
  deriving DecidableEq, Repr

/-- Integer sum of a per-row expression over the rows of a query result:
SUM(f) over rows. -/
def sumBy (rows : List JobRow) (f : JobRow → Int) : Int :=
  rows.foldl (fun a j => a + f j) 0

/-- Rows contributing to the per-(cluster, subcluster) statistics query:
the security check and the caller filters are the row predicate p, to
which the query adds cluster and subcluster equality. -/
def queryRowsFor (p : JobRow → Bool) (db : List JobRow) (c : ClusterCfg) (sc : SubClusterCfg) :
    List JobRow :=
  db.filter (fun j => p j && j.cluster == c.name && j.subcluster == sc.name)

/-- The core-hours expression of one job row for a subcluster:
job.duration * job.num_nodes * socketsPerNode * coresPerSocket. -/
def coreHoursExpr (sc : SubClusterCfg) (j : JobRow) : Int :=
  j.duration * j.numNodes * sc.socketsPerNode * sc.coresPerSocket

/-- One scanned result row (id, COUNT, walltime aggregate, core-hours
aggregate) of a per-(cluster, subcluster) query over a nonempty group.
roundRule is the engine-selected CAST(ROUND(SUM(..) / 3600)) combination,
applied to the raw integer sums. -/
def aggRow (roundRule : Int → Int) (sc : SubClusterCfg) (idv : String) (rows : List JobRow) :
    String × Int × Int × Int :=
  (idv, rows.length, roundRule (sumBy rows JobRow.duration), roundRule (sumBy rows (coreHoursExpr sc)))

/-- Result rows of one per-(cluster, subcluster) statistics query. With no
GROUP BY (groupBy nil) the aggregate query returns exactly one row whose
id is the literal empty string, with zero aggregates (NULL scanned through
NullInt64) when no row matches; with GROUP BY it returns one row per
distinct key among the matching rows. -/
def statsQueryRows (roundRule : Int → Int) (p : JobRow → Bool) (db : List JobRow)
    (groupBy : Option Aggregate) (c : ClusterCfg) (sc : SubClusterCfg) :
    List (String × Int × Int × Int) :=
  let rows := queryRowsFor p db c sc
  match groupBy with
  | none => [if rows.isEmpty then ("", 0, 0, 0) else aggRow roundRule sc "" rows]
  | some g =>
    ((rows.map (aggColumn g)).dedup).map
      (fun k => aggRow roundRule sc k (rows.filter (fun j => aggColumn g j == k)))

/-- Accumulation of one scanned row into the stats map: an existing group
entry has the three totals added, a new group id creates an entry. -/
def addStat (stats : List JobsStats) (e : String × Int × Int × Int) : List JobsStats :=
  if stats.any (fun s => s.id == e.1) then
    stats.map (fun s =>
      if s.id == e.1 then
        {s with totalJobs := s.totalJobs + e.2.1,
                totalWalltime := s.totalWalltime + e.2.2.1,
                totalCoreHours := s.totalCoreHours + e.2.2.2}
      else s)
  else stats ++ [⟨e.1, e.2.1, e.2.2.1, e.2.2.2, 0⟩]

/-- Phase one of JobsStatistics: the nested loop over configured clusters
and subclusters, merging every scanned result row into the stats map. -/
def phase1 (roundRule : Int → Int) (p : JobRow → Bool) (db : List JobRow)
    (groupBy : Option Aggregate) (clusters : List ClusterCfg) : List JobsStats :=
  (clusters.flatMap (fun c => c.subClusters.flatMap (fun sc => statsQueryRows roundRule p db groupBy c sc))).foldl
    addStat []

/-- Lookup of a group entry in the stats map. -/
def findStat (stats : List JobsStats) (id : String) : Option JobsStats :=
  stats.find? (fun s => s.id == id)

/-- Writing a short-job count into an existing group entry. -/
def setShort (stats : List JobsStats) (id : String) (cnt : Int) : List JobsStats :=
  stats.map (fun s => if s.id == id then {s with shortJobs := cnt} else s)

/-- Rows of the short-job query: the same predicate p (security check plus
filters) with job.duration below the configured threshold; note there is
no cluster restriction here. -/
def shortRows (p : JobRow → Bool) (shortDur : Int) (db : List JobRow) : List JobRow :=
  db.filter (fun j => p j && decide (j.duration < shortDur))

/-- JobRepository.JobsStatistics: per-subcluster aggregation merged by
grouping key, followed by the short-job counts. Accessing a group id
absent from the stats map dereferences a nil map entry, modeled as
Except.error nilPointerDeref: with groupBy nil this is the unconditional
write through stats of the empty-string key, with groupBy set it is the
per-group write stats-of-id ShortJobs. The user-name enrichment and the
optional histograms only populate fields not modeled in JobsStats and do
not alter any field stated about here; they are omitted. -/
def JobsStatistics (clusters : List ClusterCfg) (roundRule : Int → Int) (p : JobRow → Bool)
    (shortDur : Int) (db : List JobRow) (groupBy : Option Aggregate) :
    Except GoPanic (List JobsStats) :=
  let stats := phase1 roundRule p db groupBy clusters
  match groupBy with
  | none =>
    let cnt : Int := (shortRows p shortDur db).length
    match findStat stats "" with
    | none => Except.error GoPanic.nilPointerDeref
    | some _ => Except.ok (setShort stats "" cnt)
  | some g =>
    let srows := shortRows p shortDur db
    ((srows.map (aggColumn g)).dedup).foldlM
      (fun acc k =>
        match findStat acc k with
        | none => Except.error GoPanic.nilPointerDeref
        | some _ =>
            Except.ok (setShort acc k ((srows.filter (fun j => aggColumn g j == k)).length)))
      stats

/-- Total core-hours of one cluster as the specification states them: the
sum over the subclusters of the cluster of the engine-rounded core-hours
sum of the jobs of that subcluster. -/
def clusterCoreHours (roundRule : Int → Int) (p : JobRow → Bool) (db : List JobRow)
    (c : ClusterCfg) : Int :=
  (c.subClusters.map (fun sc => roundRule (sumBy (queryRowsFor p db c sc) (coreHoursExpr sc)))).sum

/-- Total core-hours recorded in the stats map under a group id, zero when
the group is absent. -/
def chOf (stats : List JobsStats) (id : String) : Int :=
  match findStat stats id with
  | none => 0
  | some s => s.totalCoreHours

/-- Sum of the core-hours components of the scanned result rows carrying a
given group id. -/
def sumEntriesCH (E : List (String × Int × Int × Int)) (id : String) : Int :=
  ((E.filter (fun e => e.1 == id)).map (fun e => e.2.2.2)).sum

/-- A baseline job row for concrete instances. -/
def baseJob : JobRow :=
  { id := 1, jobId := 1000, user := "bob", project := "projA", cluster := "fritz",
    subcluster := "main", startTime := 0, partition := "p1", arrayJobId := 0,
    numNodes := 1, numHWThreads := 4, numAcc := 0, exclusive := 1,
    monitoringStatus := MonitoringStatus.runningOrArchiving, smt := 0,
    state := JobState.running, duration := 0, walltime := 0, resources := "[]",
    metaData := none, flopsAnyAvg := 0, memUsedMax := 0, memBwAvg := 0,
    loadAvg := 0, netBwAvg := 0, fileBwAvg := 0 }

/-- A plain (non-elevated) authenticated caller. -/
def alice : User := { username := "alice", name := "Alice", roles := [Role.user] }

/-- A job of another user whose metadata blob contains the text secret. -/
def bobSecretJob : JobRow :=
  {baseJob with user := "bob", cluster := "fritz", metaData := some [("jobName", "secretrun")]}

/-- The same job of the other user with unrelated metadata. -/
def bobOtherJob : JobRow :=
  {baseJob with user := "bob", cluster := "fritz", metaData := some [("jobName", "otherrun")]}

/-- Database state in which a row of another user matches the search term. -/
def envSecret : Database := { jobs := [bobSecretJob], users := [] }

/-- Database state differing from envSecret only in rows of that other user. -/
def envOther : Database := { jobs := [bobOtherJob], users := [] }

/-- A job of another user whose cluster column is the empty string and
whose metadata blob contains the text secret. -/
def emptyClusterJob : JobRow :=
  {baseJob with user := "bob", cluster := "", metaData := some [("jobName", "secretrun")]}

/-- Database state triggering the unguarded metasnip slice. -/
def envEmptyCluster : Database := { jobs := [emptyClusterJob], users := [] }

/-- A queued archive task whose archive client call fails. -/
def failingTask : ArchiveTask := { job := bobSecretJob, archiveResult := none, markOk := true }

/-- Repository state holding the job of the failing archive task. -/
def archiveState0 : RepoState := { db := [bobSecretJob], cache := [] }

/-- A running job 3700 seconds past its start with a 3000 second walltime. -/
def walltimeJobLate (now : Int) : JobRow :=
  {baseJob with walltime := 3000, startTime := now - 3700, duration := 500}

/-- A running job 3000 seconds past its start with a 3000 second walltime. -/
def walltimeJobOk (now : Int) : JobRow :=
  {baseJob with walltime := 3000, startTime := now - 3000, duration := 500}

/-- A single configured cluster with one subcluster. -/
def oneClusterCfg : List ClusterCfg :=
  [{ name := "fritz", subClusters := [{ name := "main", socketsPerNode := 2, coresPerSocket := 4 }] }]

/-- A short job on a cluster that is not in the configured cluster list. -/
def strayShortJob : JobRow :=
  {baseJob with cluster := "other", subcluster := "main", duration := 10, state := JobState.completed}

/-- A completed job on subcluster main of the cluster fritz. -/
def statsJobA : JobRow := {baseJob with id := 10, subcluster := "main", duration := 7200, numNodes := 2, state := JobState.completed}

/-- A completed job on subcluster spr of the cluster fritz. -/
def statsJobB : JobRow := {baseJob with id := 11, subcluster := "spr", duration := 3600, numNodes := 1, state := JobState.completed}

/-- One configured cluster with two subclusters of distinct core density. -/
def statsClusterCfg : List ClusterCfg :=
  [{ name := "fritz", subClusters := [{ name := "main", socketsPerNode := 2, coresPerSocket := 4 },
      { name := "spr", socketsPerNode := 2, coresPerSocket := 26 }] }]

/-- The rounding rule of the sqlite3 engine: the sum of integers divided
by 3600 is an integer division, ROUND and the int cast are then identity. -/
def sqliteRound : Int → Int := fun x => x / 3600

/-- C4: a caller without an elevated role invoking findColumnValue on any
(table, select-column, where-column) triple and any database state gets
the empty result paired with the forbidden error; the result is the same
for every database state, so no data is returned and the database plays
no part in the outcome. -/
theorem findColumnValue_forbidden_for_non_elevated
    (env : Database) (u : User)
    (h : u.hasAnyRole [Role.admin, Role.support, Role.manager] = false)
    (searchterm table selectColumn whereColumn : String) (isLike : Bool) :
    FindColumnValue env u searchterm table selectColumn whereColumn isLike
      = ("", some Err.forbidden) := by
  simp [FindColumnValue, h]

/-- Witness for C4 at a concrete non-elevated caller and database. -/
theorem findColumnValue_forbidden_for_non_elevated_witness :
    alice.hasAnyRole [Role.admin, Role.support, Role.manager] = false
    ∧ FindColumnValue envSecret alice "secret" "job" "user" "user" false
        = ("", some Err.forbidden) :=
  ⟨by decide, findColumnValue_forbidden_for_non_elevated envSecret alice (by decide)
    "secret" "job" "user" "user" false⟩

/-- C5: stopJobsExceedingWalltimeBy maps every row through the per-row
transition; a running job with positive walltime whose elapsed time
exceeds walltime plus grace becomes failed with duration 0 and monitoring
status archiving-failed, every other row is returned unchanged; with
grace 60 a running job with walltime 3000 started 3700 seconds ago is
transitioned while one started 3000 seconds ago is left untouched. -/
theorem stopJobsExceedingWalltimeBy_spec :
    (∀ now seconds db, StopJobsExceedingWalltimeBy now seconds db
        = db.map (stopWalltimeOne now seconds))
    ∧ (∀ now seconds j, j.state = JobState.running ∧ j.walltime > 0
          ∧ now - j.startTime > j.walltime + seconds →
        stopWalltimeOne now seconds j = walltimeTransition j)
    ∧ (∀ now seconds j, ¬(j.state = JobState.running ∧ j.walltime > 0
          ∧ now - j.startTime > j.walltime + seconds) →
        stopWalltimeOne now seconds j = j)
    ∧ (∀ now, StopJobsExceedingWalltimeBy now 60 [walltimeJobLate now, walltimeJobOk now]
        = [walltimeTransition (walltimeJobLate now), walltimeJobOk now]) := by
  refine ⟨fun _ _ _ => rfl, fun now seconds j h => ?_, fun now seconds j h => ?_, fun now => ?_⟩
  · rw [stopWalltimeOne, if_pos h]
  · rw [stopWalltimeOne, if_neg h]
  · have h1 : stopWalltimeOne now 60 (walltimeJobLate now)
        = walltimeTransition (walltimeJobLate now) := by
      rw [stopWalltimeOne, if_pos]
      refine ⟨rfl, by norm_num [walltimeJobLate, baseJob], ?_⟩
      simp only [walltimeJobLate, baseJob]
      omega
    have h2 : stopWalltimeOne now 60 (walltimeJobOk now) = walltimeJobOk now := by
      rw [stopWalltimeOne, if_neg]
      intro h
      have := h.2.2
      simp only [walltimeJobOk, baseJob] at this
      omega
    simp [StopJobsExceedingWalltimeBy, h1, h2]

/-- Witness for C5 at grace 60 and a concrete clock value. -/
theorem stopJobsExceedingWalltimeBy_spec_witness :
    ((walltimeJobLate 10000).state = JobState.running ∧ (walltimeJobLate 10000).walltime > 0
      ∧ 10000 - (walltimeJobLate 10000).startTime > (walltimeJobLate 10000).walltime + 60)
    ∧ stopWalltimeOne 10000 60 (walltimeJobLate 10000)
        = walltimeTransition (walltimeJobLate 10000)
    ∧ StopJobsExceedingWalltimeBy 10000 60 [walltimeJobLate 10000, walltimeJobOk 10000]
        = [walltimeTransition (walltimeJobLate 10000), walltimeJobOk 10000] :=
  ⟨by decide, stopJobsExceedingWalltimeBy_spec.2.1 10000 60 (walltimeJobLate 10000) (by decide),
   stopJobsExceedingWalltimeBy_spec.2.2.2 10000⟩

/-- C7: scanJob re-derives the duration of a running job with stored
duration 0 as now minus start time and leaves every other row unchanged;
Find returns the first matching row scanned through scanJob and leaves
the database untouched, so the derived duration is never written back. -/
theorem find_derives_running_duration :
    (∀ now j, j.duration = 0 ∧ j.state = JobState.running →
        scanJob now j = {j with duration := now - j.startTime})
    ∧ (∀ now j, ¬(j.duration = 0 ∧ j.state = JobState.running) → scanJob now j = j)
    ∧ (∀ now db jobId cluster startTime,
        (Find now db jobId cluster startTime).2 = db)
    ∧ (∀ now db jobId cluster startTime row,
        (db.filter (fun j => j.jobId == jobId && optMatchStr cluster j.cluster
            && optMatchInt startTime j.startTime)).head? = some row →
        (Find now db jobId cluster startTime).1 = Except.ok (scanJob now row)) := by
  refine ⟨fun now j h => ?_, fun now j h => ?_, fun now db jobId cluster startTime => ?_,
    fun now db jobId cluster startTime row h => ?_⟩
  · rw [scanJob, if_pos h]
  · rw [scanJob, if_neg h]
  · rw [Find]
    cases hh : (db.filter (fun j => j.jobId == jobId && optMatchStr cluster j.cluster
        && optMatchInt startTime j.startTime)).head? <;> simp [hh]
  · rw [Find]
    simp [h]

/-- Witness for C7 at a concrete running job with stored duration 0. -/
theorem find_derives_running_duration_witness :
    (baseJob.duration = 0 ∧ baseJob.state = JobState.running)
    ∧ scanJob 4200 baseJob = {baseJob with duration := 4200 - baseJob.startTime}
    ∧ ([baseJob].filter (fun j => j.jobId == (1000 : Int) && optMatchStr none j.cluster
          && optMatchInt none j.startTime)).head? = some baseJob
    ∧ (Find 4200 [baseJob] 1000 none none).1 = Except.ok (scanJob 4200 baseJob)
    ∧ (Find 4200 [baseJob] 1000 none none).2 = [baseJob] :=
  ⟨by decide, find_derives_running_duration.1 4200 baseJob (by decide), by decide,
   find_derives_running_duration.2.2.2 4200 [baseJob] 1000 none none baseJob (by decide),
   find_derives_running_duration.2.2.1 4200 [baseJob] 1000 none none⟩

/-- C1 counterexample: for the non-elevated caller alice, two database
states that agree on every row owned by alice (there are none) but differ
in a metadata value of a row owned by bob produce different results of
findUserOrProjectOrJobname, so the final metadata-substring step is not
security-checked and the result depends on rows belonging to other users. -/
theorem findUserOrProjectOrJobname_leaks_other_users_rows :
    alice.hasAnyRole [Role.admin, Role.support, Role.manager] = false
    ∧ (∀ j ∈ envSecret.jobs, j.user ≠ alice.username)
    ∧ (∀ j ∈ envOther.jobs, j.user ≠ alice.username)
    ∧ envSecret.jobs.filter (fun j => j.user == alice.username)
        = envOther.jobs.filter (fun j => j.user == alice.username)
    ∧ FindUserOrProjectOrJobname envSecret (some alice) "secret"
        = Except.ok ("", "", "f", none)
    ∧ FindUserOrProjectOrJobname envOther (some alice) "secret"
        = Except.ok ("", "", "", some Err.notFound) := by
  refine ⟨by decide, ?_, ?_, by decide, by decide, by decide⟩ <;> decide

/-- C1 amended: for every caller without an elevated role, the first three
lookup steps of findUserOrProjectOrJobname are security-checked (each
findColumnValue call returns the forbidden error and no data), while the
final metadata-substring step is not: the function returns the metadata
step result computed over the whole job table regardless of row owner. -/
theorem findUserOrProjectOrJobname_non_elevated_spec
    (env : Database) (u : User) (term : String)
    (hrole : u.hasAnyRole [Role.admin, Role.support, Role.manager] = false)
    (hterm : isIntString term = false) :
    FindColumnValue env u term "job" "user" "user" false = ("", some Err.forbidden)
    ∧ FindColumnValue env u term "user" "username" "name" true = ("", some Err.forbidden)
    ∧ FindColumnValue env u term "job" "project" "project" false = ("", some Err.forbidden)
    ∧ FindUserOrProjectOrJobname env (some u) term = metaStepResult env term := by
  refine ⟨findColumnValue_forbidden_for_non_elevated env u hrole _ _ _ _ _,
    findColumnValue_forbidden_for_non_elevated env u hrole _ _ _ _ _,
    findColumnValue_forbidden_for_non_elevated env u hrole _ _ _ _ _, ?_⟩
  rw [FindUserOrProjectOrJobname]
  simp [hterm, findColumnValue_forbidden_for_non_elevated env u hrole]

/-- Witness for the amended C1 at the concrete caller alice. -/
theorem findUserOrProjectOrJobname_non_elevated_spec_witness :
    alice.hasAnyRole [Role.admin, Role.support, Role.manager] = false
    ∧ isIntString "secret" = false
    ∧ (FindColumnValue envSecret alice "secret" "job" "user" "user" false
          = ("", some Err.forbidden)
        ∧ FindColumnValue envSecret alice "secret" "user" "username" "name" true
          = ("", some Err.forbidden)
        ∧ FindColumnValue envSecret alice "secret" "job" "project" "project" false
          = ("", some Err.forbidden)
        ∧ FindUserOrProjectOrJobname envSecret (some alice) "secret"
          = metaStepResult envSecret "secret") :=
  ⟨by decide, by decide,
   findUserOrProjectOrJobname_non_elevated_spec envSecret alice "secret" (by decide) (by decide)⟩

/-- C2 evaluation at the failing input: one enqueued job whose archive
client call fails is driven to the terminal status archiving-failed, yet
the pending-work counter stands at 1 after the worker has drained the
queue, because Done() is only called on the fully successful path; so
waitForArchiving never returns. -/
theorem archivePending_stuck_on_failure :
    pendingAfter archiveState0 [failingTask] = 1
    ∧ pendingAfter archiveState0 [failingTask] ≠ 0
    ∧ ((rowOf (archivingWorkerRun archiveState0 [failingTask]).1.db failingTask.job.id).map
        (fun r => r.monitoringStatus)) = some MonitoringStatus.archivingFailed := by
  refine ⟨by decide, by decide, by decide⟩

/-- C10: when the first three steps of findUserOrProjectOrJobname miss and
the metadata substring query returns a cluster value, the clusterHint is
the one-character slice of that value, not the full name; when the
returned cluster value is the empty string the slice is out of range and
the operation panics instead of returning an error. -/
theorem findUserOrProjectOrJobname_metasnip_slice
    (env : Database) (u : User) (term : String)
    (hterm : isIntString term = false)
    (h1 : (FindColumnValue env u term "job" "user" "user" false).1 = "")
    (h2 : (FindColumnValue env u term "user" "username" "name" true).1 = "")
    (h3 : (FindColumnValue env u term "job" "project" "project" false).1 = "") :
    (∀ c, (metaMatchClusters env term).head? = some c → c ≠ "" →
        FindUserOrProjectOrJobname env (some u) term = Except.ok ("", "", strTake1 c, none))
    ∧ ((metaMatchClusters env term).head? = some "" →
        FindUserOrProjectOrJobname env (some u) term = Except.error GoPanic.sliceOutOfRange) := by
  have hmain : FindUserOrProjectOrJobname env (some u) term = metaStepResult env term := by
    rw [FindUserOrProjectOrJobname]
    simp [hterm, h1, h2, h3]
  constructor
  · intro c hc hne
    rw [hmain, metaStepResult, hc]
    simp [hne]
  · intro hc
    rw [hmain, metaStepResult, hc]
    simp

/-- Witness for C10: one database state yields the one-character hint from
the cluster named fritz, another with an empty cluster value panics. -/
theorem findUserOrProjectOrJobname_metasnip_slice_witness :
    isIntString "secret" = false
    ∧ (FindColumnValue envSecret alice "secret" "job" "user" "user" false).1 = ""
    ∧ (metaMatchClusters envSecret "secret").head? = some "fritz"
    ∧ FindUserOrProjectOrJobname envSecret (some alice) "secret"
        = Except.ok ("", "", strTake1 "fritz", none)
    ∧ (metaMatchClusters envEmptyCluster "secret").head? = some ""
    ∧ FindUserOrProjectOrJobname envEmptyCluster (some alice) "secret"
        = Except.error GoPanic.sliceOutOfRange :=
  ⟨by decide, by decide, by decide,
   (findUserOrProjectOrJobname_metasnip_slice envSecret alice "secret" (by decide) (by decide)
      (by decide) (by decide)).1 "fritz" (by decide) (by decide),
   by decide,
   (findUserOrProjectOrJobname_metasnip_slice envEmptyCluster alice "secret" (by decide)
      (by decide) (by decide) (by decide)).2 (by decide)⟩

/-- FetchMetadata never modifies the job table: only the cache can change. -/
lemma fetchMetadata_db (s : RepoState) (id : Nat) : (FetchMetadata s id).2.db = s.db := by
  rw [FetchMetadata]
  repeat' split
  all_goals rfl

lemma fetchMetadata_ok_of_row (s : RepoState) (id : Nat) (h : (rowOf s.db id).isSome = true) :
    ∃ v s', FetchMetadata s id = (Except.ok v, s') := by
  rw [FetchMetadata]
  cases hc : cacheGet s.cache id with
  | some m => exact ⟨some m, s, rfl⟩
  | none =>
    cases hr : rowOf s.db id with
    | none => rw [hr] at h; simp at h
    | some row =>
      cases hm : row.metaData with
      | none => simp [hr, hm]
      | some m => simp [hr, hm]

lemma rowOf_update_self (db : List JobRow) (id : Nat) (g : JobRow → JobRow)
    (hg : ∀ j, (g j).id = j.id) :
    rowOf (db.map (fun j => if j.id == id then g j else j)) id = (rowOf db id).map g := by
  induction db with
  | nil => rfl
  | cons j t ih =>
    simp only [List.map_cons, rowOf, List.find?]
    cases hj : (j.id == id) with
    | true =>
      simp only [hj, if_true, hg j]
      rfl
    | false =>
      simp only [hj, Bool.false_eq_true, if_false]
      exact ih
    
lemma rowOf_update_ne (db : List JobRow) (id id' : Nat) (g : JobRow → JobRow)
    (hg : ∀ j, (g j).id = j.id) (hne : id' ≠ id) :
    rowOf (db.map (fun j => if j.id == id then g j else j)) id' = rowOf db id' := by
  induction db with
  | nil => rfl
  | cons j t ih =>
    simp only [List.map_cons, rowOf, List.find?]
    cases hj : (j.id == id) with
    | true =>
      have hjid : j.id = id := by simpa using hj
      have h2 : (j.id == id') = false := by
        simp only [beq_eq_false_iff_ne]
        omega
      simp only [hj, if_true, hg j, h2]
      exact ih
    | false =>
      simp only [hj, Bool.false_eq_true, if_false]
      cases hk : (j.id == id') with
      | true => simp only [hk]
      | false => simp only [hk]; exact ih


/-- C3: when the archive client call of a dequeued job fails, the worker
sets exactly that job's monitoring status to archiving-failed, leaves all
its summary-statistic columns and every other row untouched, consumes the
task once without retrying it, and the loop continues with the remaining
queued tasks from the updated state. -/
theorem archiveFailure_marks_failed_and_continues
    (s : RepoState) (t : ArchiveTask) (rest : List ArchiveTask)
    (hfail : t.archiveResult = none)
    (hrow : (rowOf s.db t.job.id).isSome = true) :
    ∃ s1 : RepoState,
      processArchiveTask s t = (s1, false)
      ∧ s1.db = UpdateMonitoringStatus s.db t.job.id MonitoringStatus.archivingFailed
      ∧ rowOf s1.db t.job.id
          = (rowOf s.db t.job.id).map
              (fun r => {r with monitoringStatus := MonitoringStatus.archivingFailed})
      ∧ (∀ id', id' ≠ t.job.id → rowOf s1.db id' = rowOf s.db id')
      ∧ archivingWorkerRun s (t :: rest) = archivingWorkerRun s1 rest := by
  obtain ⟨v, s', hfetch⟩ := fetchMetadata_ok_of_row s t.job.id hrow
  have hdb : s'.db = s.db := by
    have h0 := fetchMetadata_db s t.job.id
    rw [hfetch] at h0
    exact h0
  have hstep : processArchiveTask s t
      = ({s' with db := UpdateMonitoringStatus s'.db t.job.id MonitoringStatus.archivingFailed},
         false) := by
    rw [processArchiveTask, hfetch, hfail]
  refine ⟨_, hstep, ?_, ?_, ?_, ?_⟩
  · simp [hdb]
  · show rowOf (UpdateMonitoringStatus s'.db t.job.id MonitoringStatus.archivingFailed) t.job.id = _
    rw [hdb, UpdateMonitoringStatus]
    exact rowOf_update_self s.db t.job.id _ (fun j => rfl)
  · intro id' hne
    show rowOf (UpdateMonitoringStatus s'.db t.job.id MonitoringStatus.archivingFailed) id' = _
    rw [hdb, UpdateMonitoringStatus]
    exact rowOf_update_ne s.db t.job.id id' _ (fun j => rfl) hne
  · rw [archivingWorkerRun, hstep]
    simp


lemma lookup_filterOut_ne {K B : Type} [BEq K] [LawfulBEq K]
    (m : List (K × B)) (key k' : K) (h : k' ≠ key) :
    (m.filter (fun p => p.1 != key)).lookup k' = m.lookup k' := by
  induction m with
  | nil => rfl
  | cons a t ih =>
    obtain ⟨ak, av⟩ := a
    by_cases ha : ak = key
    · have hb : ((ak, av).1 != key) = false := by simp [ha]
      have hk : (k' == ak) = false := by simp [ha, h]
      simp only [List.filter_cons, hb, Bool.false_eq_true, if_false, List.lookup_cons, hk]
      exact ih
    · have hb : ((ak, av).1 != key) = true := by simp [ha]
      simp only [List.filter_cons, hb, if_true, List.lookup_cons]
      cases hk : (k' == ak) with
      | true => simp only [hk, if_true]
      | false => simp only [hk, Bool.false_eq_true, if_false]; exact ih

lemma lookup_filterOut_self {K B : Type} [BEq K] [LawfulBEq K]
    (m : List (K × B)) (key : K) :
    (m.filter (fun p => p.1 != key)).lookup key = none := by
  induction m with
  | nil => rfl
  | cons a t ih =>
    obtain ⟨ak, av⟩ := a
    by_cases ha : ak = key
    · have hb : ((ak, av).1 != key) = false := by simp [ha]
      simp only [List.filter_cons, hb, Bool.false_eq_true, if_false]
      exact ih
    · have hb : ((ak, av).1 != key) = true := by simp [ha]
      have hk : (key == ak) = false := by
        simp only [beq_eq_false_iff_ne]
        exact fun hh => ha hh.symm
      simp only [List.filter_cons, hb, if_true, List.lookup_cons, hk, Bool.false_eq_true, if_false]
      exact ih

lemma cacheGet_put_self (c : MetaCache) (k : Nat) (v : MetaMap) :
    cacheGet (cachePut c k v) k = some v := by
  simp [cacheGet, cachePut]

lemma cacheGet_put_ne (c : MetaCache) (k : Nat) (v : MetaMap) (k' : Nat) (h : k' ≠ k) :
    cacheGet (cachePut c k v) k' = cacheGet c k' := by
  have hk : (k' == k) = false := by simp [h]
  simp only [cacheGet, cachePut, List.lookup_cons, hk]
  exact lookup_filterOut_ne c k k' h

lemma cacheGet_del_self (c : MetaCache) (k : Nat) :
    cacheGet (cacheDel c k) k = none :=
  lookup_filterOut_self c k

lemma cacheGet_del_ne (c : MetaCache) (k k' : Nat) (h : k' ≠ k) :
    cacheGet (cacheDel c k) k' = cacheGet c k' :=
  lookup_filterOut_ne c k k' h

lemma lookup_copyInsert_self (m : MetaMap) (key val : String) :
    (copyInsert m key val).lookup key = some val := by
  simp [copyInsert]

lemma lookup_copyInsert_ne (m : MetaMap) (key val k' : String) (h : k' ≠ key) :
    (copyInsert m key val).lookup k' = m.lookup k' := by
  have hk : (k' == key) = false := by simp [h]
  simp only [copyInsert, List.lookup_cons, hk]
  exact lookup_filterOut_ne m key k' h


lemma rowOf_dbSetMeta_self (db : List JobRow) (id : Nat) (m : MetaMap) :
    rowOf (dbSetMeta db id m) id
      = (rowOf db id).map (fun j => {j with metaData := some m}) := by
  rw [dbSetMeta]
  exact rowOf_update_self db id _ (fun j => rfl)

lemma fetchMetadata_after_put (s : RepoState) (jobId : Nat) (m : MetaMap)
    (h : cacheGet s.cache jobId = some m) :
    (FetchMetadata s jobId).1 = Except.ok (some m) := by
  rw [FetchMetadata, h]

lemma fetchMetadata_reload (s : RepoState) (jobId : Nat) (row : JobRow) (m : MetaMap)
    (hc : cacheGet s.cache jobId = none)
    (hr : rowOf s.db jobId = some row)
    (hm : row.metaData = some m) :
    (FetchMetadata s jobId).1 = Except.ok (some m) := by
  rw [FetchMetadata, hc, hr]
  simp only [hm]

/-- C6: after updateMetadata succeeds on an existing job whose in-memory
metadata is nil or matches the stored map, fetchMetadata returns a merged
map both from the repopulated cache and after the cache entry is deleted
(forcing a reload of the persisted blob); the merged map binds the new key
to the new value, keeps every other binding of the map present before the
update, is built by copy on write, and no other cache entry changes. -/
theorem updateMetadata_merges_and_persists
    (s : RepoState) (jobId : Nat) (row : JobRow) (jobMeta : Option MetaMap) (key val : String)
    (hrow : rowOf s.db jobId = some row)
    (hcoh : cacheGet s.cache jobId = none ∨ cacheGet s.cache jobId = row.metaData)
    (hjm : jobMeta = none ∨ jobMeta = row.metaData) :
    ∃ merged s',
      UpdateMetadata s jobId jobMeta key val = (Except.ok (), some merged, s')
      ∧ (FetchMetadata s' jobId).1 = Except.ok (some merged)
      ∧ (FetchMetadata {s' with cache := cacheDel s'.cache jobId} jobId).1
          = Except.ok (some merged)
      ∧ merged.lookup key = some val
      ∧ (∀ k', k' ≠ key → merged.lookup k' = (row.metaData.getD []).lookup k')
      ∧ (∀ id', id' ≠ jobId → cacheGet s'.cache id' = cacheGet s.cache id') := by
  have hrow1 : rowOf ({s with cache := cacheDel s.cache jobId} : RepoState).db jobId = some row := hrow
  rcases hm : row.metaData with _ | m
  · -- stored blob empty: the in-memory map must be none as well
    have hjm0 : jobMeta = none := by
      rcases hjm with h | h
      · exact h
      · rw [h, hm]
    subst hjm0
    have hF : FetchMetadata ({s with cache := cacheDel s.cache jobId} : RepoState) jobId
        = (Except.ok none, {s with cache := cacheDel s.cache jobId}) := by
      rw [FetchMetadata]
      simp only [cacheGet_del_self, hrow1, hm]
    have hupd : UpdateMetadata s jobId none key val
        = (Except.ok (), some [(key, val)],
           { db := dbSetMeta s.db jobId [(key, val)],
             cache := cachePut (cacheDel s.cache jobId) jobId [(key, val)] }) := by
      rw [UpdateMetadata, hF]
    refine ⟨[(key, val)], _, hupd, ?_, ?_, ?_, ?_, ?_⟩
    · exact fetchMetadata_after_put _ _ _ (cacheGet_put_self _ _ _)
    · refine fetchMetadata_reload _ _ {row with metaData := some [(key, val)]} _ ?_ ?_ rfl
      · exact cacheGet_del_self _ _
      · show rowOf (dbSetMeta s.db jobId [(key, val)]) jobId = _
        rw [rowOf_dbSetMeta_self, hrow]
        rfl
    · simp
    · intro k' hk
      have hkb : (k' == key) = false := by simp [hk]
      simp [List.lookup_cons, hkb, hm]
    · intro id' hne
      show cacheGet (cachePut (cacheDel s.cache jobId) jobId [(key, val)]) id' = _
      rw [cacheGet_put_ne _ _ _ _ hne, cacheGet_del_ne _ _ _ hne]
  · -- stored blob holds the map m
    rcases hjm with hjm0 | hjm0
    · -- in-memory metadata nil: the update fetches from the store first
      subst hjm0
      have hF : FetchMetadata ({s with cache := cacheDel s.cache jobId} : RepoState) jobId
          = (Except.ok (some m),
             { db := s.db, cache := cachePut (cacheDel s.cache jobId) jobId m }) := by
        rw [FetchMetadata]
        simp only [cacheGet_del_self, hrow1, hm]
      have hupd : UpdateMetadata s jobId none key val
          = (Except.ok (), some (copyInsert m key val),
             { db := dbSetMeta s.db jobId (copyInsert m key val),
               cache := cachePut (cachePut (cacheDel s.cache jobId) jobId m) jobId
                 (copyInsert m key val) }) := by
        rw [UpdateMetadata, hF]
      refine ⟨copyInsert m key val, _, hupd, ?_, ?_, ?_, ?_, ?_⟩
      · exact fetchMetadata_after_put _ _ _ (cacheGet_put_self _ _ _)
      · refine fetchMetadata_reload _ _ {row with metaData := some (copyInsert m key val)} _ ?_ ?_ rfl
        · exact cacheGet_del_self _ _
        · show rowOf (dbSetMeta s.db jobId (copyInsert m key val)) jobId = _
          rw [rowOf_dbSetMeta_self, hrow]
          rfl
      · exact lookup_copyInsert_self m key val
      · intro k' hk
        rw [lookup_copyInsert_ne m key val k' hk]
        rfl
      · intro id' hne
        show cacheGet (cachePut (cachePut (cacheDel s.cache jobId) jobId m) jobId
            (copyInsert m key val)) id' = _
        rw [cacheGet_put_ne _ _ _ _ hne, cacheGet_put_ne _ _ _ _ hne,
          cacheGet_del_ne _ _ _ hne]
    · -- in-memory metadata present and consistent with the store
      rw [hm] at hjm0
      subst hjm0
      have hupd : UpdateMetadata s jobId (some m) key val
          = (Except.ok (), some (copyInsert m key val),
             { db := dbSetMeta s.db jobId (copyInsert m key val),
               cache := cachePut (cacheDel s.cache jobId) jobId (copyInsert m key val) }) := by
        rw [UpdateMetadata]
      refine ⟨copyInsert m key val, _, hupd, ?_, ?_, ?_, ?_, ?_⟩
      · exact fetchMetadata_after_put _ _ _ (cacheGet_put_self _ _ _)
      · refine fetchMetadata_reload _ _ {row with metaData := some (copyInsert m key val)} _ ?_ ?_ rfl
        · exact cacheGet_del_self _ _
        · show rowOf (dbSetMeta s.db jobId (copyInsert m key val)) jobId = _
          rw [rowOf_dbSetMeta_self, hrow]
          rfl
      · exact lookup_copyInsert_self m key val
      · intro k' hk
        rw [lookup_copyInsert_ne m key val k' hk]
        rfl
      · intro id' hne
        show cacheGet (cachePut (cacheDel s.cache jobId) jobId (copyInsert m key val)) id' = _
        rw [cacheGet_put_ne _ _ _ _ hne, cacheGet_del_ne _ _ _ hne]


/-- Witness for C3 at the concrete failing task and repository state. -/
theorem archiveFailure_marks_failed_and_continues_witness :
    failingTask.archiveResult = none
    ∧ (rowOf archiveState0.db failingTask.job.id).isSome = true
    ∧ (∃ s1 : RepoState,
        processArchiveTask archiveState0 failingTask = (s1, false)
        ∧ s1.db = UpdateMonitoringStatus archiveState0.db failingTask.job.id
            MonitoringStatus.archivingFailed
        ∧ rowOf s1.db failingTask.job.id
            = (rowOf archiveState0.db failingTask.job.id).map
                (fun r => {r with monitoringStatus := MonitoringStatus.archivingFailed})
        ∧ (∀ id', id' ≠ failingTask.job.id → rowOf s1.db id' = rowOf archiveState0.db id')
        ∧ archivingWorkerRun archiveState0 (failingTask :: [])
            = archivingWorkerRun s1 []) :=
  ⟨rfl, by decide,
   archiveFailure_marks_failed_and_continues archiveState0 failingTask [] rfl (by decide)⟩

/-- Witness for C6 at a concrete job whose stored metadata holds one key. -/
theorem updateMetadata_merges_and_persists_witness :
    rowOf archiveState0.db 1 = some bobSecretJob
    ∧ cacheGet archiveState0.cache 1 = none
    ∧ (∃ merged s',
        UpdateMetadata archiveState0 1 none "note" "x" = (Except.ok (), some merged, s')
        ∧ (FetchMetadata s' 1).1 = Except.ok (some merged)
        ∧ (FetchMetadata {s' with cache := cacheDel s'.cache 1} 1).1 = Except.ok (some merged)
        ∧ merged.lookup "note" = some "x"
        ∧ (∀ k', k' ≠ "note" → merged.lookup k' = (bobSecretJob.metaData.getD []).lookup k')
        ∧ (∀ id', id' ≠ 1 → cacheGet s'.cache id' = cacheGet archiveState0.cache id')) :=
  ⟨by decide, by decide,
   updateMetadata_merges_and_persists archiveState0 1 bobSecretJob none "note" "x"
     (by decide) (Or.inl (by decide)) (Or.inl rfl)⟩

/-- C9 counterexample: with a configured cluster and subcluster, groupBy
nil and filters that exclude every job, the per-subcluster aggregate query
without GROUP BY still contributes one zero row under the empty-string id,
so the short-job count is written into an existing entry and jobsStatistics
returns normally instead of panicking. -/
theorem jobsStatistics_zero_row_despite_filters :
    JobsStatistics oneClusterCfg (fun x => x) (fun _ => false) 300 [baseJob] none
      = Except.ok [{ id := "", totalJobs := 0, totalWalltime := 0, totalCoreHours := 0,
                     shortJobs := 0 }]
    ∧ (∀ g : GoPanic,
        JobsStatistics oneClusterCfg (fun x => x) (fun _ => false) 300 [baseJob] none
          ≠ Except.error g) := by
  refine ⟨by decide, ?_⟩
  intro g
  cases g <;> decide

/-- C9 amended: with groupBy nil, the write of the short-job count through
the empty-string stats entry dereferences a nil map entry exactly when no
per-(cluster, subcluster) query ran, that is when the configured cluster
list is empty or no configured cluster has subclusters; with groupBy set, a
group returned by the short-job query but absent from the per-subcluster
statistics (a short job on a cluster outside the configured list)
dereferences a nil map entry at that group id. -/
theorem jobsStatistics_nil_entry_panics :
    (∀ (roundRule : Int → Int) (p : JobRow → Bool) (shortDur : Int) (db : List JobRow),
        JobsStatistics [] roundRule p shortDur db none = Except.error GoPanic.nilPointerDeref)
    ∧ (∀ (roundRule : Int → Int) (p : JobRow → Bool) (shortDur : Int) (db : List JobRow)
          (clusters : List ClusterCfg),
        (∀ c ∈ clusters, c.subClusters = []) →
        JobsStatistics clusters roundRule p shortDur db none
          = Except.error GoPanic.nilPointerDeref)
    ∧ JobsStatistics oneClusterCfg (fun x => x) (fun _ => true) 300 [strayShortJob]
        (some Aggregate.cluster) = Except.error GoPanic.nilPointerDeref := by
  refine ⟨fun roundRule p shortDur db => rfl, ?_, by decide⟩
  intro roundRule p shortDur db clusters hsub
  have hE : clusters.flatMap
      (fun c => c.subClusters.flatMap (fun sc => statsQueryRows roundRule p db none c sc)) = [] := by
    rw [List.flatMap_eq_nil_iff]
    intro c hc
    rw [hsub c hc]
    rfl
  rw [JobsStatistics, phase1, hE]
  rfl


/-- Deduplication of a nonempty constant list. -/
lemma dedup_const {A : Type} [DecidableEq A] (l : List A) (a : A)
    (h : ∀ x ∈ l, x = a) (hne : l ≠ []) : l.dedup = [a] := by
  induction l with
  | nil => exact absurd rfl hne
  | cons x t ih =>
    have hx : x = a := h x (List.mem_cons_self x t)
    subst hx
    cases ht : t.isEmpty with
    | true =>
      rw [List.isEmpty_iff.mp ht]
      rfl
    | false =>
      have htne : t ≠ [] := by
        intro hh
        rw [hh] at ht
        simp at ht
      have hmem : x ∈ t := by
        cases t with
        | nil => exact absurd rfl htne
        | cons y u =>
          have : y = x := h y (by simp)
          rw [this]
          exact List.mem_cons_self x u
      rw [List.dedup_cons_of_mem hmem]
      exact ih (fun z hz => h z (List.mem_cons_of_mem x hz)) htne

/-- Every row of a per-(cluster, subcluster) query carries that cluster name. -/
lemma queryRowsFor_cluster (p : JobRow → Bool) (db : List JobRow) (c : ClusterCfg)
    (sc : SubClusterCfg) : ∀ j ∈ queryRowsFor p db c sc, j.cluster = c.name := by
  intro j hj
  have h := (List.mem_filter.mp hj).2
  simp only [Bool.and_eq_true, beq_iff_eq] at h
  exact h.1.2


/-- With cluster grouping, a per-(cluster, subcluster) query returns no row when no job matches and otherwise exactly one row keyed by the cluster name, aggregating all matching rows. -/
lemma statsQueryRows_cluster_eq (rr : Int → Int) (p : JobRow → Bool) (db : List JobRow)
    (c : ClusterCfg) (sc : SubClusterCfg) :
    statsQueryRows rr p db (some Aggregate.cluster) c sc
      = if (queryRowsFor p db c sc).isEmpty then []
        else [aggRow rr sc c.name (queryRowsFor p db c sc)] := by
  rw [statsQueryRows]
  cases he : (queryRowsFor p db c sc).isEmpty with
  | true =>
    rw [List.isEmpty_iff.mp he]
    rfl
  | false =>
    have hne : queryRowsFor p db c sc ≠ [] := by
      intro hh
      rw [hh] at he
      simp at he
    have hall : ∀ x ∈ (queryRowsFor p db c sc).map (aggColumn Aggregate.cluster), x = c.name := by
      intro x hx
      obtain ⟨j, hj, hjx⟩ := List.mem_map.mp hx
      rw [← hjx]
      exact queryRowsFor_cluster p db c sc j hj
    have hmapne : (queryRowsFor p db c sc).map (aggColumn Aggregate.cluster) ≠ [] := by
      intro hh
      exact hne (List.map_eq_nil_iff.mp hh)
    rw [dedup_const _ c.name hall hmapne]
    have hfilter : (queryRowsFor p db c sc).filter
        (fun j => aggColumn Aggregate.cluster j == c.name) = queryRowsFor p db c sc := by
      rw [List.filter_eq_self]
      intro j hj
      simp only [beq_iff_eq]
      exact queryRowsFor_cluster p db c sc j hj
    simp only [List.map_cons, List.map_nil, hfilter, he, Bool.false_eq_true, if_false]


/-- Lookup in the stats map commutes with an id-preserving per-entry update. -/
lemma findStat_map_pres (stats : List JobsStats) (f : JobsStats → JobsStats)
    (hf : ∀ x, (f x).id = x.id) (id : String) :
    findStat (stats.map f) id = (findStat stats id).map f := by
  induction stats with
  | nil => rfl
  | cons st t ih =>
    simp only [List.map_cons, findStat, List.find?]
    cases hs : (st.id == id) with
    | true =>
      simp only [hf st, hs]
      rfl
    | false =>
      simp only [hf st, hs]
      exact ih

/-- A found stats entry carries the id it was looked up by. -/
lemma findStat_id (stats : List JobsStats) (id : String) (st : JobsStats)
    (h : findStat stats id = some st) : st.id = id := by
  have := List.find?_some h
  simpa using this

/-- Core-hours lookup across appending one new entry. -/
lemma chOf_append_single (stats : List JobsStats) (x : JobsStats) (id : String) :
    chOf (stats ++ [x]) id
      = (match findStat stats id with
         | some s => s.totalCoreHours
         | none => if x.id == id then x.totalCoreHours else 0) := by
  rw [chOf, findStat, List.find?_append]
  cases hf : List.find? (fun s => s.id == id) stats with
  | none =>
    rw [show findStat stats id = none from hf]
    simp only [Option.none_or]
    cases hx : (x.id == id) with
    | true => simp [List.find?, hx]
    | false => simp [List.find?, hx]
  | some s =>
    rw [show findStat stats id = some s from hf]
    simp only [Option.or_some]

/-- Core-hours lookup across the merging update of addStat. -/
lemma chOf_map_update (stats : List JobsStats) (e : String × Int × Int × Int) (id : String) :
    chOf (stats.map (fun s =>
        if s.id == e.1 then
          {s with totalJobs := s.totalJobs + e.2.1,
                  totalWalltime := s.totalWalltime + e.2.2.1,
                  totalCoreHours := s.totalCoreHours + e.2.2.2}
        else s)) id
      = (match findStat stats id with
         | some s => if e.1 = id then s.totalCoreHours + e.2.2.2 else s.totalCoreHours
         | none => 0) := by
  rw [chOf, findStat_map_pres stats _ (fun x => by split <;> rfl) id]
  cases hf : findStat stats id with
  | none => rfl
  | some s =>
    have hsid : s.id = id := findStat_id stats id s hf
    simp only [Option.map_some']
    by_cases he : e.1 = id
    · have hb : (s.id == e.1) = true := by simp [hsid, he]
      simp [hb, he, hsid]
    · have hcond : s.id ≠ e.1 := by
        rw [hsid]
        exact fun hh => he hh.symm
      simp [hcond, he]

/-- One addStat step adds the core-hours of entries carrying the looked-up id. -/
lemma chOf_addStat (stats : List JobsStats) (e : String × Int × Int × Int) (id : String) :
    chOf (addStat stats e) id = chOf stats id + (if e.1 = id then e.2.2.2 else 0) := by
  rw [addStat]
  cases hany : stats.any (fun s => s.id == e.1) with
  | true =>
    simp only [if_true]
    rw [chOf_map_update]
    cases hf : findStat stats id with
    | none =>
      by_cases he : e.1 = id
      · obtain ⟨s0, hs0, hs0e⟩ := List.any_eq_true.mp hany
        have hs0id : s0.id = e.1 := by simpa using hs0e
        have hne : findStat stats id ≠ none := by
          intro hh
          have := List.find?_eq_none.mp hh s0 hs0
          rw [hs0id, he] at this
          simp at this
        exact absurd hf hne
      · rw [chOf, hf]
        simp [he]
    | some s =>
      rw [chOf, hf]
      by_cases he : e.1 = id <;> simp [he]
  | false =>
    simp only [Bool.false_eq_true, if_false]
    rw [chOf_append_single]
    cases hf : findStat stats id with
    | none =>
      rw [chOf, hf]
      by_cases he : e.1 = id
      · have hb : ((⟨e.1, e.2.1, e.2.2.1, e.2.2.2, 0⟩ : JobsStats).id == id) = true := by
          simp [he]
        simp [hb, he]
      · have hb : ((⟨e.1, e.2.1, e.2.2.1, e.2.2.2, 0⟩ : JobsStats).id == id) = false := by
          simp [he]
        simp [hb, he]
    | some s =>
      rw [chOf, hf]
      by_cases he : e.1 = id
      · have hsid : s.id = id := findStat_id stats id s hf
        have : stats.any (fun x => x.id == e.1) = true := by
          refine List.any_eq_true.mpr ⟨s, List.mem_of_find?_eq_some hf, ?_⟩
          simp [hsid, he]
        rw [this] at hany
        cases hany
      · simp [he]


/-- Entry core-hours sum of the empty list. -/
lemma sumEntriesCH_nil (id : String) : sumEntriesCH [] id = 0 := rfl

/-- Entry core-hours sum across a cons. -/
lemma sumEntriesCH_cons (e : String × Int × Int × Int) (E : List (String × Int × Int × Int))
    (id : String) :
    sumEntriesCH (e :: E) id = (if e.1 = id then e.2.2.2 else 0) + sumEntriesCH E id := by
  rw [sumEntriesCH, sumEntriesCH, List.filter_cons]
  by_cases he : e.1 = id
  · have hb : (e.1 == id) = true := by simp [he]
    simp [hb, he]
  · have hb : (e.1 == id) = false := by simp [he]
    simp [hb, he]

/-- Entry core-hours sum splits over append. -/
lemma sumEntriesCH_append (E F : List (String × Int × Int × Int)) (id : String) :
    sumEntriesCH (E ++ F) id = sumEntriesCH E id + sumEntriesCH F id := by
  rw [sumEntriesCH, sumEntriesCH, sumEntriesCH, List.filter_append, List.map_append,
    List.sum_append]

/-- Folding addStat over scanned rows accumulates exactly the core-hours of the rows carrying the looked-up id. -/
lemma chOf_foldl (E : List (String × Int × Int × Int)) :
    ∀ (stats : List JobsStats) (id : String),
      chOf (E.foldl addStat stats) id = chOf stats id + sumEntriesCH E id := by
  induction E with
  | nil => intro stats id; simp [sumEntriesCH_nil]
  | cons e E ih =>
    intro stats id
    rw [List.foldl_cons, ih (addStat stats e) id, chOf_addStat, sumEntriesCH_cons]
    ring

/-- The stats map keeps distinct group ids across addStat. -/
lemma ids_addStat (stats : List JobsStats) (e : String × Int × Int × Int)
    (h : (stats.map JobsStats.id).Nodup) :
    ((addStat stats e).map JobsStats.id).Nodup := by
  rw [addStat]
  cases hany : stats.any (fun s => s.id == e.1) with
  | true =>
    simp only [if_true]
    have : (stats.map (fun s =>
        if s.id == e.1 then
          {s with totalJobs := s.totalJobs + e.2.1,
                  totalWalltime := s.totalWalltime + e.2.2.1,
                  totalCoreHours := s.totalCoreHours + e.2.2.2}
        else s)).map JobsStats.id = stats.map JobsStats.id := by
      rw [List.map_map]
      refine List.map_congr_left ?_
      intro s _
      show (if s.id == e.1 then _ else s).id = s.id
      split <;> rfl
    rw [this]
    exact h
  | false =>
    simp only [Bool.false_eq_true, if_false, List.map_append]
    rw [List.nodup_append]
    refine ⟨h, List.nodup_singleton _, ?_⟩
    intro x hx
    simp only [List.map_cons, List.map_nil, List.mem_singleton]
    intro hxe
    obtain ⟨s0, hs0, hs0x⟩ := List.mem_map.mp hx
    have : stats.any (fun s => s.id == e.1) = true := by
      refine List.any_eq_true.mpr ⟨s0, hs0, ?_⟩
      simp [hs0x, hxe]
    rw [this] at hany
    cases hany

/-- The stats map built by folding addStat has distinct group ids. -/
lemma ids_foldl_addStat (E : List (String × Int × Int × Int)) :
    ∀ stats : List JobsStats, (stats.map JobsStats.id).Nodup →
      ((E.foldl addStat stats).map JobsStats.id).Nodup := by
  induction E with
  | nil => intro stats h; exact h
  | cons e E ih =>
    intro stats h
    rw [List.foldl_cons]
    exact ih (addStat stats e) (ids_addStat stats e h)

/-- In a stats map with distinct ids, every member is found under its own id. -/
lemma findStat_of_mem (stats : List JobsStats) (h : (stats.map JobsStats.id).Nodup)
    (st : JobsStats) (hmem : st ∈ stats) : findStat stats st.id = some st := by
  induction stats with
  | nil => cases hmem
  | cons s t ih =>
    rcases List.mem_cons.mp hmem with rfl | hmem2
    · rw [findStat]
      simp [List.find?]
    · have hne : (s.id == st.id) = false := by
        simp only [beq_eq_false_iff_ne]
        intro hh
        rw [List.map_cons, List.nodup_cons] at h
        exact h.1 (hh ▸ List.mem_map.mpr ⟨st, hmem2, rfl⟩)
      rw [findStat, List.find?_cons, hne]
      rw [List.map_cons, List.nodup_cons] at h
      exact ih h.2 hmem2


/-- Writing a short-job count preserves the group ids. -/
lemma ids_setShort (stats : List JobsStats) (k : String) (cnt : Int) :
    (setShort stats k cnt).map JobsStats.id = stats.map JobsStats.id := by
  rw [setShort, List.map_map]
  refine List.map_congr_left ?_
  intro s _
  show (if s.id == k then _ else s).id = s.id
  split <;> rfl

/-- Writing a short-job count preserves total core-hours. -/
lemma chOf_setShort (stats : List JobsStats) (k : String) (cnt : Int) (id : String) :
    chOf (setShort stats k cnt) id = chOf stats id := by
  rw [chOf, setShort, findStat_map_pres stats _ (fun x => by split <;> rfl) id, chOf]
  cases hf : findStat stats id with
  | none => rfl
  | some s =>
    simp only [Option.map_some']
    split <;> rfl

/-- A successful short-job phase preserves the group ids and the total core-hours of every group. -/
lemma shortFold_preserves (g : Aggregate) (srows : List JobRow) (groups : List String) :
    ∀ (stats res : List JobsStats),
      (groups.foldlM (fun acc k =>
          match findStat acc k with
          | none => Except.error GoPanic.nilPointerDeref
          | some _ =>
              Except.ok (setShort acc k ((srows.filter (fun j => aggColumn g j == k)).length)))
        stats) = Except.ok res →
      res.map JobsStats.id = stats.map JobsStats.id
      ∧ (∀ id, chOf res id = chOf stats id) := by
  induction groups with
  | nil =>
    intro stats res h
    have : stats = res := by
      simpa [List.foldlM, pure, Except.pure] using h
    subst this
    exact ⟨rfl, fun id => rfl⟩
  | cons k ks ih =>
    intro stats res h
    rw [List.foldlM_cons] at h
    cases hf : findStat stats k with
    | none =>
      rw [hf] at h
      cases h
    | some s =>
      rw [hf] at h
      simp only [bind, Except.bind] at h
      obtain ⟨h1, h2⟩ := ih _ _ h
      refine ⟨by rw [h1, ids_setShort], fun id => by rw [h2 id, chOf_setShort]⟩


/-- Contribution of one subcluster query to its own cluster key. -/
lemma sumEntriesCH_sqr_self (rr : Int → Int) (p : JobRow → Bool) (db : List JobRow)
    (c : ClusterCfg) (sc : SubClusterCfg) (h0 : rr 0 = 0) :
    sumEntriesCH (statsQueryRows rr p db (some Aggregate.cluster) c sc) c.name
      = rr (sumBy (queryRowsFor p db c sc) (coreHoursExpr sc)) := by
  rw [statsQueryRows_cluster_eq]
  cases he : (queryRowsFor p db c sc).isEmpty with
  | true =>
    rw [if_pos rfl]
    rw [List.isEmpty_iff.mp he]
    rw [show sumBy [] (coreHoursExpr sc) = 0 from rfl, h0]
    rfl
  | false =>
    rw [if_neg (by simp)]
    rw [sumEntriesCH_cons, sumEntriesCH_nil]
    simp [aggRow]

/-- A subcluster query contributes nothing to a foreign key. -/
lemma sumEntriesCH_sqr_ne (rr : Int → Int) (p : JobRow → Bool) (db : List JobRow)
    (c : ClusterCfg) (sc : SubClusterCfg) (id : String) (h : c.name ≠ id) :
    sumEntriesCH (statsQueryRows rr p db (some Aggregate.cluster) c sc) id = 0 := by
  rw [statsQueryRows_cluster_eq]
  cases he : (queryRowsFor p db c sc).isEmpty with
  | true => rw [if_pos rfl]; rfl
  | false =>
    rw [if_neg (by simp)]
    rw [sumEntriesCH_cons, sumEntriesCH_nil]
    simp [aggRow, h]


/-- Contribution of all subcluster queries of a cluster to its own key. -/
lemma sumEntriesCH_subclusters_self (rr : Int → Int) (p : JobRow → Bool) (db : List JobRow)
    (c : ClusterCfg) (h0 : rr 0 = 0) (scs : List SubClusterCfg) :
    sumEntriesCH (scs.flatMap
        (fun sc => statsQueryRows rr p db (some Aggregate.cluster) c sc)) c.name
      = (scs.map (fun sc => rr (sumBy (queryRowsFor p db c sc) (coreHoursExpr sc)))).sum := by
  induction scs with
  | nil => rfl
  | cons sc scs ih =>
    rw [List.flatMap_cons, sumEntriesCH_append, ih, List.map_cons, List.sum_cons,
      sumEntriesCH_sqr_self rr p db c sc h0]

/-- Subcluster queries of a cluster contribute nothing to a foreign key. -/
lemma sumEntriesCH_subclusters_ne (rr : Int → Int) (p : JobRow → Bool) (db : List JobRow)
    (c : ClusterCfg) (id : String) (h : c.name ≠ id) (scs : List SubClusterCfg) :
    sumEntriesCH (scs.flatMap
        (fun sc => statsQueryRows rr p db (some Aggregate.cluster) c sc)) id = 0 := by
  induction scs with
  | nil => rfl
  | cons sc scs ih =>
    rw [List.flatMap_cons, sumEntriesCH_append, ih, sumEntriesCH_sqr_ne rr p db c sc id h]
    simp

/-- Clusters whose names differ from the key contribute nothing. -/
lemma sumEntriesCH_clusters_notmem (rr : Int → Int) (p : JobRow → Bool) (db : List JobRow)
    (id : String) (cs : List ClusterCfg) (h : ∀ c ∈ cs, c.name ≠ id) :
    sumEntriesCH (cs.flatMap (fun c => c.subClusters.flatMap
        (fun sc => statsQueryRows rr p db (some Aggregate.cluster) c sc))) id = 0 := by
  induction cs with
  | nil => rfl
  | cons c0 t ih =>
    rw [List.flatMap_cons, sumEntriesCH_append,
      sumEntriesCH_subclusters_ne rr p db c0 id (h c0 (List.mem_cons_self c0 t)) _,
      ih (fun c hc => h c (List.mem_cons_of_mem c0 hc))]
    simp

/-- With distinct configured cluster names, the phase-one entries keyed by a cluster name sum to that cluster core-hours total. -/
lemma sumEntriesCH_clusters_self (rr : Int → Int) (p : JobRow → Bool) (db : List JobRow)
    (h0 : rr 0 = 0) (cs : List ClusterCfg) (hnodup : (cs.map ClusterCfg.name).Nodup)
    (c : ClusterCfg) (hc : c ∈ cs) :
    sumEntriesCH (cs.flatMap (fun c => c.subClusters.flatMap
        (fun sc => statsQueryRows rr p db (some Aggregate.cluster) c sc))) c.name
      = clusterCoreHours rr p db c := by
  induction cs with
  | nil => cases hc
  | cons c0 t ih =>
    rw [List.map_cons, List.nodup_cons] at hnodup
    rcases List.mem_cons.mp hc with rfl | hct
    · rw [List.flatMap_cons, sumEntriesCH_append,
        sumEntriesCH_subclusters_self rr p db c h0 _,
        sumEntriesCH_clusters_notmem rr p db c.name t ?hne]
      · rw [clusterCoreHours]
        ring
      case hne =>
        intro c' hc' hh
        exact hnodup.1 (hh ▸ List.mem_map.mpr ⟨c', hc', rfl⟩)
    · have hne0 : c0.name ≠ c.name := by
        intro hh
        exact hnodup.1 (hh ▸ List.mem_map.mpr ⟨c, hct, rfl⟩)
      rw [List.flatMap_cons, sumEntriesCH_append,
        sumEntriesCH_subclusters_ne rr p db c0 c.name hne0 _,
        ih hnodup.2 hct]
      ring

/-- C8: in jobsStatistics grouped by cluster, the reported total core-hours
of every group equals the sum over the subclusters of that cluster of the
engine-rounded sum of duration * num_nodes * socketsPerNode * coresPerSocket
over the jobs of the group in that subcluster; the per-subcluster partial
sums are merged by the grouping key. -/
theorem jobsStatistics_cluster_corehours
    (clusters : List ClusterCfg) (roundRule : Int → Int) (p : JobRow → Bool)
    (shortDur : Int) (db : List JobRow) (res : List JobsStats)
    (hnodup : (clusters.map ClusterCfg.name).Nodup)
    (h0 : roundRule 0 = 0)
    (hok : JobsStatistics clusters roundRule p shortDur db (some Aggregate.cluster)
        = Except.ok res) :
    ∀ st ∈ res, ∀ c ∈ clusters, c.name = st.id →
      st.totalCoreHours = clusterCoreHours roundRule p db c := by
  intro st hst c hc hname
  rw [JobsStatistics] at hok
  obtain ⟨hids, hch⟩ := shortFold_preserves Aggregate.cluster _ _ _ _ hok
  have hnodres : (res.map JobsStats.id).Nodup := by
    rw [hids, phase1]
    exact ids_foldl_addStat _ [] (by simp)
  have hfind : findStat res st.id = some st := findStat_of_mem res hnodres st hst
  have h1 : st.totalCoreHours = chOf res st.id := by
    rw [chOf, hfind]
  rw [h1, hch st.id, phase1, chOf_foldl _ [] st.id]
  rw [show chOf [] st.id = 0 from rfl, ← hname]
  rw [sumEntriesCH_clusters_self roundRule p db h0 clusters hnodup c hc]
  ring

/-- Witness for C8 at a concrete configuration with two subclusters of
distinct core density and the sqlite rounding rule. -/
theorem jobsStatistics_cluster_corehours_witness :
    (statsClusterCfg.map ClusterCfg.name).Nodup
    ∧ sqliteRound 0 = 0
    ∧ JobsStatistics statsClusterCfg sqliteRound (fun _ => true) 300 [statsJobA, statsJobB]
        (some Aggregate.cluster)
      = Except.ok [{ id := "fritz", totalJobs := 2, totalWalltime := 3, totalCoreHours := 84,
                     shortJobs := 0 }]
    ∧ ({ id := "fritz", totalJobs := 2, totalWalltime := 3, totalCoreHours := 84,
         shortJobs := 0 } : JobsStats).totalCoreHours
      = clusterCoreHours sqliteRound (fun _ => true) [statsJobA, statsJobB]
          { name := "fritz",
            subClusters := [{ name := "main", socketsPerNode := 2, coresPerSocket := 4 },
              { name := "spr", socketsPerNode := 2, coresPerSocket := 26 }] } :=
  ⟨by decide, by decide, by decide,
   jobsStatistics_cluster_corehours statsClusterCfg sqliteRound (fun _ => true) 300
     [statsJobA, statsJobB]
     [{ id := "fritz", totalJobs := 2, totalWalltime := 3, totalCoreHours := 84, shortJobs := 0 }]
     (by decide) (by decide) (by decide)
     { id := "fritz", totalJobs := 2, totalWalltime := 3, totalCoreHours := 84, shortJobs := 0 }
     (by decide)
     { name := "fritz",
       subClusters := [{ name := "main", socketsPerNode := 2, coresPerSocket := 4 },
         { name := "spr", socketsPerNode := 2, coresPerSocket := 26 }] }
     (by decide) (by decide)⟩

/-- Witness for the amended C9 at a configured cluster with no subclusters. -/
theorem jobsStatistics_nil_entry_panics_witness :
    (∀ c ∈ ([{ name := "fritz", subClusters := [] }] : List ClusterCfg), c.subClusters = [])
    ∧ JobsStatistics [{ name := "fritz", subClusters := [] }] sqliteRound (fun _ => true) 300
        [baseJob] none = Except.error GoPanic.nilPointerDeref :=
  ⟨by decide,
   jobsStatistics_nil_entry_panics.2.1 sqliteRound (fun _ => true) 300 [baseJob] _ (by decide)⟩

end CcBackend
